import Mathlib

set_option maxRecDepth 100000

/-!
Verification of the reconstruction core of ext3grep (src/ext3grep.cc) against
its natural-language specification.  The C++ functions named in the claims are
shallowly embedded as executable Lean definitions; machine integers are
modelled as Nat with explicit `% 2 ^ w` where the C code truncates.
-/

namespace Ext3grep

/-- On-disk inode record, restricted to the fields the analysed code reads:
`mode()`, `dtime()`, `atime()`, `blocks()` (the 512-byte sector count) and
`block()` (the 15 block-pointer slots: 12 direct, IND, DIND, TIND). -/
structure Inode where
  mode : Nat
  dtime : Nat
  atime : Nat
  blocks : Nat
  block : List Nat
deriving DecidableEq, Repr

/-- `is_directory(Inode&)`: `(inode.mode() & 0xf000) == 0x4000`. -/
def is_directory_inode (ino : Inode) : Bool :=
  ino.mode &&& 0xf000 == 0x4000

/-- `is_symlink(Inode&)`: `(inode.mode() & 0xf000) == 0xa000`. -/
def is_symlink_inode (ino : Inode) : Bool :=
  ino.mode &&& 0xf000 == 0xa000

/-! ## Bitmap access: `get_bitmap_mask` (ext3grep.cc lines 87-104)

The C function fills a `union { uint64_t mask; unsigned char byte[8]; }`.
We model the `index` field, the byte array writes, and the resulting 64-bit
`mask` value under the little-endian layout of the union (byte `j` contributes
`byte[j] * 256 ^ j` to `mask`). -/

/-- `result.index = bit >> 6`. -/
def get_bitmap_mask_index (bit : Nat) : Nat := bit >>> 6

/-- The value of `result.byte[j]` after
`result.byte[(bit & 63) >> 3] = 1 << (bit & 7)` on a zero-initialised mask. -/
def get_bitmap_mask_byte (bit j : Nat) : Nat :=
  if j = (bit &&& 63) >>> 3 then 1 <<< (bit &&& 7) else 0

/-- The 64-bit `result.mask` read back through the union (little endian). -/
def get_bitmap_mask (bit : Nat) : Nat :=
  ∑ j in Finset.range 8, get_bitmap_mask_byte bit j * 256 ^ j

/-! ## `blocknr_vector_type` (ext3grep.cc lines 3590-3653)

A tagged `union { size_t blocknr; uint32_t* blocknr_vector; }`.  A single
block number `bnr` is stored as `(bnr << 1) | 1`, computed in 32-bit unsigned
arithmetic (`bnr` is `uint32_t`) and then widened to `size_t`.  The heap array
used by the many-entries representation is modelled by a `heap` function; the
single-entry operations never consult it. -/

/-- `push_back(bnr)` on an empty vector: `blocknr = (bnr << 1) | 1`,
truncated to 32 bits before widening to `size_t`. -/
def bv_push_back_on_empty (bnr : Nat) : Nat :=
  ((bnr <<< 1) ||| 1) % 2 ^ 32

/-- `empty()`: `blocknr == 0`. -/
def bv_empty (s : Nat) : Bool := s == 0

/-- `is_vector()`: `!(blocknr & 1)`. -/
def bv_is_vector (s : Nat) : Bool := s &&& 1 == 0

/-- `size()`: `is_vector() ? blocknr_vector[0] : 1`. -/
def bv_size (heap : Nat → Nat) (s : Nat) : Nat :=
  if bv_is_vector s then heap 0 else 1

/-- `first_entry()`: `is_vector() ? blocknr_vector[1] : (blocknr >> 1)`. -/
def bv_first_entry (heap : Nat → Nat) (s : Nat) : Nat :=
  if bv_is_vector s then heap 1 else s >>> 1

/-! ### Helper lemmas for bit arithmetic -/

theorem and_63_eq_mod (n : Nat) : n &&& 63 = n % 64 := by
  have h := Nat.and_pow_two_sub_one_eq_mod n 6
  norm_num at h; exact h

theorem and_7_eq_mod (n : Nat) : n &&& 7 = n % 8 := by
  have h := Nat.and_pow_two_sub_one_eq_mod n 3
  norm_num at h; exact h

theorem two_mul_or_one (n : Nat) : 2 * n ||| 1 = 2 * n + 1 := by
  have h1 : (2 * n ||| 1) % 2 = 1 := by
    rw [Nat.or_mod_two_eq_one]; omega
  have h2 : (2 * n ||| 1) / 2 = n := by
    rw [Nat.or_div_two]; norm_num
  omega

theorem byte_index_eq (n : Nat) : (n &&& 63) >>> 3 = (n >>> 3) % 8 := by
  rw [and_63_eq_mod, Nat.shiftRight_eq_div_pow, Nat.shiftRight_eq_div_pow]
  norm_num; omega

/-- Claim C9: for every bit number n, get_bitmap_mask returns index n >> 6 and
a 64-bit mask whose byte (n >> 3) mod 8 holds exactly 1 << (n & 7) while all
other bytes are zero; the mask therefore equals 2 ^ (n mod 64), so querying
bit n round-trips with the byte-wise low-to-high, within-byte LSB-first bitmap
convention.  In particular, bit 13 yields index 0, byte 1 = 0x20 and
mask = 0x2000. -/
theorem claim_C9_get_bitmap_mask :
    (∀ n : Nat, get_bitmap_mask_index n = n >>> 6) ∧
    (∀ n : Nat, get_bitmap_mask_byte n ((n >>> 3) % 8) = 2 ^ (n % 8)) ∧
    (∀ n j : Nat, j ≠ (n >>> 3) % 8 → get_bitmap_mask_byte n j = 0) ∧
    (∀ n : Nat, get_bitmap_mask n = 2 ^ (n % 64)) ∧
    (∀ n : Nat, (get_bitmap_mask n).testBit (n % 64) = true) ∧
    (get_bitmap_mask_index 13 = 0 ∧ get_bitmap_mask_byte 13 1 = 0x20 ∧
      get_bitmap_mask 13 = 0x2000) := by
  have hbyte : ∀ n j : Nat,
      get_bitmap_mask_byte n j = if j = (n >>> 3) % 8 then 2 ^ (n % 8) else 0 := by
    intro n j
    rw [get_bitmap_mask_byte, byte_index_eq, and_7_eq_mod, Nat.shiftLeft_eq, one_mul]
  have hmask : ∀ n : Nat, get_bitmap_mask n = 2 ^ (n % 64) := by
    intro n
    have hK : (n >>> 3) % 8 < 8 := Nat.mod_lt _ (by norm_num)
    calc get_bitmap_mask n
        = ∑ j in Finset.range 8,
            (if j = (n >>> 3) % 8 then 2 ^ (n % 8) * 256 ^ j else 0) := by
          rw [get_bitmap_mask]
          refine Finset.sum_congr rfl (fun j _ => ?_)
          rw [hbyte, ite_mul, zero_mul]
      _ = 2 ^ (n % 8) * 256 ^ ((n >>> 3) % 8) := by
          rw [Finset.sum_ite_eq' (Finset.range 8)]
          simp [hK]
      _ = 2 ^ (n % 64) := by
          have h256 : (256 : Nat) = 2 ^ 8 := by norm_num
          rw [h256, ← pow_mul, ← pow_add]
          congr 1
          rw [Nat.shiftRight_eq_div_pow]
          norm_num; omega
  refine ⟨fun n => rfl, ?_, ?_, hmask, ?_, ?_, ?_, ?_⟩
  · intro n; rw [hbyte]; simp
  · intro n j h; rw [hbyte]; simp [h]
  · intro n; rw [hmask]; exact Nat.testBit_two_pow_self
  · rfl
  · rw [hbyte]; decide
  · rw [hmask]; decide

/-- Witness for claim C9 at n = 13, j = 0: byte 0 of the mask for bit 13 is
zero. -/
theorem claim_C9_witness : get_bitmap_mask_byte 13 0 = 0 :=
  claim_C9_get_bitmap_mask.2.2.1 13 0 (by decide)

/-- Claim C10: for 0 < b, push_back(b) on an empty blocknr_vector_type yields
a state with empty() = false, size() = 1, and first_entry() = b mod 2^31;
when b < 2^31 the round trip returns b exactly.  The 2^31 bound comes from
the tagged encoding (b << 1) | 1 being computed in 32-bit unsigned
arithmetic before widening to size_t. -/
theorem claim_C10_blocknr_vector_roundtrip :
    ∀ (heap : Nat → Nat) (b : Nat), 0 < b →
    bv_empty (bv_push_back_on_empty b) = false ∧
    bv_size heap (bv_push_back_on_empty b) = 1 ∧
    bv_first_entry heap (bv_push_back_on_empty b) = b % 2 ^ 31 ∧
    (b < 2 ^ 31 → bv_first_entry heap (bv_push_back_on_empty b) = b) := by
  intro heap b _
  have hshift : b <<< 1 = 2 * b := by
    rw [Nat.shiftLeft_eq]; ring
  have hval : bv_push_back_on_empty b = (2 * b + 1) % 2 ^ 32 := by
    rw [bv_push_back_on_empty, hshift, two_mul_or_one]
  have hodd : bv_push_back_on_empty b % 2 = 1 := by
    rw [hval]; omega
  have hvec : bv_is_vector (bv_push_back_on_empty b) = false := by
    rw [bv_is_vector, Nat.and_one_is_mod, hodd]; rfl
  refine ⟨?_, ?_, ?_, ?_⟩
  · rw [bv_empty]; simp only [beq_eq_false_iff_ne, ne_eq]; omega
  · rw [bv_size, hvec]; rfl
  · rw [bv_first_entry, hvec]
    simp only [Bool.false_eq_true, if_false]
    rw [hval, Nat.shiftRight_eq_div_pow]
    norm_num; omega
  · intro hlt
    rw [bv_first_entry, hvec]
    simp only [Bool.false_eq_true, if_false]
    rw [hval, Nat.shiftRight_eq_div_pow]
    norm_num; omega

/-- Witness for claim C10 at b = 5: the single-value store/read round trip. -/
theorem claim_C10_witness :
    bv_empty (bv_push_back_on_empty 5) = false ∧
    bv_size (fun _ => 99) (bv_push_back_on_empty 5) = 1 ∧
    bv_first_entry (fun _ => 99) (bv_push_back_on_empty 5) = 5 := by
  have h := claim_C10_blocknr_vector_roundtrip (fun _ => 99) 5 (by norm_num)
  exact ⟨h.1, h.2.1, h.2.2.2 (by norm_num)⟩

/-! ## Indirect-block walker (ext3grep.cc lines 584-724)

The device is modelled by `disk`, giving for each block number the 32-bit
pointer slots stored in that block; `nptrs` is `block_size_ / sizeof(__le32)`
and `block_count` is the superblock block count.  Each iteration function
returns the ordered list of block numbers passed to the `action` callback
together with the boolean the C function returns (`i < block_size_/4`, true
iff the loop ended early on a pointer that is not a valid block number). -/

structure FS where
  block_count : Nat
  nptrs : Nat
  disk : Nat → List Nat

/-- `is_block_number`: `block_number < block_count_`. -/
def is_block_number (fs : FS) (block_number : Nat) : Bool :=
  block_number < fs.block_count

/-- `indirect_mask` decomposed into its two bits `direct_bit` and
`indirect_bit`. -/
structure Mask where
  direct : Bool
  indirect : Bool
deriving DecidableEq, Repr

/-- Loop body of `iterate_over_all_blocks_of_indirect_block`: for each slot,
a zero pointer is skipped, a pointer that is not a block number ends the loop
(returning true), and any other pointer is passed to the action. -/
def indirect_go (bc : Nat) : List Nat → List Nat × Bool
  | [] => ([], false)
  | p :: rest =>
    if p = 0 then indirect_go bc rest
    else if p < bc then
      let r := indirect_go bc rest
      (p :: r.1, r.2)
    else ([], true)

/-- `iterate_over_all_blocks_of_indirect_block(block, action, data, mask)`
(lines 618-638). -/
def iterate_over_all_blocks_of_indirect_block (fs : FS) (block : Nat) :
    List Nat × Bool :=
  indirect_go fs.block_count ((fs.disk block).take fs.nptrs)

/-- Loop body of `iterate_over_all_blocks_of_double_indirect_block`: a
nonzero in-range pointer is emitted when `indirect_bit` is set and recursed
into (as a single indirect block) when `direct_bit` is set; a failing inner
walk breaks the loop with result true. -/
def dind_go (fs : FS) (mask : Mask) : List Nat → List Nat × Bool
  | [] => ([], false)
  | p :: rest =>
    if p = 0 then dind_go fs mask rest
    else if p < fs.block_count then
      let e := if mask.indirect then [p] else []
      if mask.direct then
        let r := iterate_over_all_blocks_of_indirect_block fs p
        if r.2 then (e ++ r.1, true)
        else
          let r2 := dind_go fs mask rest
          (e ++ r.1 ++ r2.1, r2.2)
      else
        let r2 := dind_go fs mask rest
        (e ++ r2.1, r2.2)
    else ([], true)

/-- `iterate_over_all_blocks_of_double_indirect_block` (lines 640-664). -/
def iterate_over_all_blocks_of_double_indirect_block (fs : FS) (block : Nat)
    (mask : Mask) : List Nat × Bool :=
  dind_go fs mask ((fs.disk block).take fs.nptrs)

/-- Loop body of `iterate_over_all_blocks_of_tripple_indirect_block`: like
the double-indirect loop, but the recursion into the double indirect block
is unconditional. -/
def tind_go (fs : FS) (mask : Mask) : List Nat → List Nat × Bool
  | [] => ([], false)
  | p :: rest =>
    if p = 0 then tind_go fs mask rest
    else if p < fs.block_count then
      let e := if mask.indirect then [p] else []
      let r := iterate_over_all_blocks_of_double_indirect_block fs p mask
      if r.2 then (e ++ r.1, true)
      else
        let r2 := tind_go fs mask rest
        (e ++ r.1 ++ r2.1, r2.2)
    else ([], true)

/-- `iterate_over_all_blocks_of_tripple_indirect_block` (lines 666-689). -/
def iterate_over_all_blocks_of_tripple_indirect_block (fs : FS) (block : Nat)
    (mask : Mask) : List Nat × Bool :=
  tind_go fs mask ((fs.disk block).take fs.nptrs)

/-- The IND stage: `if (block_ptr[EXT3_IND_BLOCK]) { ... }` — the top-level
pointer is emitted when `indirect_bit` is set and its subtree walked when
`direct_bit` is set. -/
def walker_ind (fs : FS) (ino : Inode) (mask : Mask) : List Nat × Bool :=
  let ip := ino.block.getD 12 0
  if ip ≠ 0 then
    let e := if mask.indirect then [ip] else []
    if mask.direct then
      let r := iterate_over_all_blocks_of_indirect_block fs ip
      (e ++ r.1, r.2)
    else (e, false)
  else ([], false)

/-- The DIND stage: the top-level pointer is emitted when `indirect_bit` is
set and its subtree walked unconditionally. -/
def walker_dind (fs : FS) (ino : Inode) (mask : Mask) : List Nat × Bool :=
  let dp := ino.block.getD 13 0
  if dp ≠ 0 then
    let e := if mask.indirect then [dp] else []
    let r := iterate_over_all_blocks_of_double_indirect_block fs dp mask
    (e ++ r.1, r.2)
  else ([], false)

/-- The TIND stage, like the DIND stage. -/
def walker_tind (fs : FS) (ino : Inode) (mask : Mask) : List Nat × Bool :=
  let tp := ino.block.getD 14 0
  if tp ≠ 0 then
    let e := if mask.indirect then [tp] else []
    let r := iterate_over_all_blocks_of_tripple_indirect_block fs tp mask
    (e ++ r.1, r.2)
  else ([], false)

/-- The three indirect stages in order, each `return true` of the C function
cutting the walk short. -/
def walker_rest (fs : FS) (ino : Inode) (mask : Mask) : List Nat × Bool :=
  let r1 := walker_ind fs ino mask
  if r1.2 then (r1.1, true)
  else
    let r2 := walker_dind fs ino mask
    if r2.2 then (r1.1 ++ r2.1, true)
    else
      let r3 := walker_tind fs ino mask
      (r1.1 ++ r2.1 ++ r3.1, r3.2)

/-- `iterate_over_all_blocks_of(inode, action, data, indirect_mask)`
(lines 692-724).  A symlink with `blocks == 0` stores its target in the
pointer area and returns immediately; otherwise the 12 direct slots are
emitted unchecked when `direct_bit` is set, followed by the three indirect
stages. -/
def iterate_over_all_blocks_of (fs : FS) (ino : Inode) (mask : Mask) :
    List Nat × Bool :=
  if is_symlink_inode ino ∧ ino.blocks = 0 then ([], false)
  else
    let d := if mask.direct then (ino.block.take 12).filter (· != 0) else []
    let r := walker_rest fs ino mask
    (d ++ r.1, r.2)

/-! ### Walker lemmas -/

theorem indirect_go_break (bc : Nat) (l1 : List Nat) (p : Nat) (l2 : List Nat)
    (h1 : ∀ q ∈ l1, q = 0 ∨ q < bc) (h2 : p ≠ 0) (h3 : bc ≤ p) :
    indirect_go bc (l1 ++ p :: l2) = (l1.filter (· != 0), true) := by
  induction l1 with
  | nil =>
    have h4 : ¬ p < bc := by omega
    simp [indirect_go, h2, h4]
  | cons q l1 ih =>
    have ih2 := ih (fun r hr => h1 r (List.mem_cons_of_mem q hr))
    by_cases hq0 : q = 0
    · subst hq0
      simp [List.cons_append, indirect_go, ih2]
    · have hqlt : q < bc := by
        rcases h1 q (List.mem_cons_self q l1) with h | h
        · exact absurd h hq0
        · exact h
      simp [List.cons_append, indirect_go, hq0, hqlt, ih2, List.filter_cons]

theorem indirect_go_all_valid (bc : Nat) (l : List Nat)
    (h : ∀ q ∈ l, q = 0 ∨ q < bc) :
    indirect_go bc l = (l.filter (· != 0), false) := by
  induction l with
  | nil => rfl
  | cons q l ih =>
    have ih2 := ih (fun r hr => h r (List.mem_cons_of_mem q hr))
    by_cases hq0 : q = 0
    · subst hq0
      simp [indirect_go, ih2]
    · have hqlt : q < bc := by
        rcases h q (List.mem_cons_self q l) with h | h
        · exact absurd h hq0
        · exact h
      simp [indirect_go, hq0, hqlt, ih2, List.filter_cons]

theorem indirect_go_lt (bc : Nat) (l : List Nat) :
    ∀ x ∈ (indirect_go bc l).1, x < bc := by
  induction l with
  | nil => intro x hx; simp [indirect_go] at hx
  | cons p rest ih =>
    intro x hx
    by_cases hp : p = 0
    · rw [indirect_go, if_pos hp] at hx
      exact ih x hx
    · rw [indirect_go, if_neg hp] at hx
      by_cases hlt : p < bc
      · rw [if_pos hlt] at hx
        rcases List.mem_cons.mp hx with h | h
        · omega
        · exact ih x h
      · rw [if_neg hlt] at hx
        simp at hx

theorem iterate_indirect_lt (fs : FS) (block : Nat) :
    ∀ x ∈ (iterate_over_all_blocks_of_indirect_block fs block).1,
      x < fs.block_count := by
  intro x hx
  exact indirect_go_lt fs.block_count _ x hx

theorem dind_go_lt (fs : FS) (mask : Mask) (l : List Nat) :
    ∀ x ∈ (dind_go fs mask l).1, x < fs.block_count := by
  induction l with
  | nil => intro x hx; simp [dind_go] at hx
  | cons p rest ih =>
    intro x hx
    by_cases hp : p = 0
    · rw [dind_go, if_pos hp] at hx
      exact ih x hx
    · rw [dind_go, if_neg hp] at hx
      by_cases hlt : p < fs.block_count
      · rw [if_pos hlt] at hx
        have hmem : ∀ y, y ∈ (if mask.indirect then [p] else []) → y < fs.block_count := by
          intro y hy
          by_cases hm : mask.indirect
          · rw [if_pos hm] at hy
            simp at hy; omega
          · rw [if_neg hm] at hy
            simp at hy
        by_cases hd : mask.direct
        · rw [if_pos hd] at hx
          by_cases hr : (iterate_over_all_blocks_of_indirect_block fs p).2
          · rw [if_pos hr] at hx
            rcases List.mem_append.mp hx with h | h
            · exact hmem x h
            · exact iterate_indirect_lt fs p x h
          · rw [if_neg hr] at hx
            rcases List.mem_append.mp hx with h | h
            · rcases List.mem_append.mp h with h2 | h2
              · exact hmem x h2
              · exact iterate_indirect_lt fs p x h2
            · exact ih x h
        · rw [if_neg hd] at hx
          rcases List.mem_append.mp hx with h | h
          · exact hmem x h
          · exact ih x h
      · rw [if_neg hlt] at hx
        simp at hx

theorem iterate_dind_lt (fs : FS) (block : Nat) (mask : Mask) :
    ∀ x ∈ (iterate_over_all_blocks_of_double_indirect_block fs block mask).1,
      x < fs.block_count := by
  intro x hx
  exact dind_go_lt fs mask _ x hx

theorem tind_go_lt (fs : FS) (mask : Mask) (l : List Nat) :
    ∀ x ∈ (tind_go fs mask l).1, x < fs.block_count := by
  induction l with
  | nil => intro x hx; simp [tind_go] at hx
  | cons p rest ih =>
    intro x hx
    by_cases hp : p = 0
    · rw [tind_go, if_pos hp] at hx
      exact ih x hx
    · rw [tind_go, if_neg hp] at hx
      by_cases hlt : p < fs.block_count
      · rw [if_pos hlt] at hx
        have hmem : ∀ y, y ∈ (if mask.indirect then [p] else []) → y < fs.block_count := by
          intro y hy
          by_cases hm : mask.indirect
          · rw [if_pos hm] at hy
            simp at hy; omega
          · rw [if_neg hm] at hy
            simp at hy
        by_cases hr : (iterate_over_all_blocks_of_double_indirect_block fs p mask).2
        · rw [if_pos hr] at hx
          rcases List.mem_append.mp hx with h | h
          · exact hmem x h
          · exact iterate_dind_lt fs p mask x h
        · rw [if_neg hr] at hx
          rcases List.mem_append.mp hx with h | h
          · rcases List.mem_append.mp h with h2 | h2
            · exact hmem x h2
            · exact iterate_dind_lt fs p mask x h2
          · exact ih x h
      · rw [if_neg hlt] at hx
        simp at hx

/-! ### Concrete states for claims C4, C5, C6 -/

/-- Filesystem of scenario S3: block_count 100000, 4 KiB blocks, block 17
holding the pointer array [42, 0x7FFFFFFF, 19, 0, ...]. -/
def fs4 : FS :=
  ⟨100000, 1024,
    fun b => if b == 17 then [42, 0x7FFFFFFF, 19] ++ List.replicate 1021 0
             else List.replicate 1024 0⟩

/-- Regular-file inode whose IND pointer (slot 12) is 17. -/
def ino4 : Inode := ⟨0x81A4, 0, 0, 8, [0, 0, 0, 0, 0, 0, 0, 0, 0, 0, 0, 0, 17, 0, 0]⟩

/-- Claim C4: inside an indirect block, a pointer slot whose value is at
least the filesystem block count stops the walk and reports the
reused-or-corrupt condition as the returned flag, having emitted exactly the
valid pointers seen before that slot.  Scenario S3: with IND = 17, block 17 =
[42, 0x7FFFFFFF, 19, 0, ...] and block_count = 100000, block 42 is enumerated
and the walk returns true without emitting 19. -/
theorem claim_C4_indirect_walk_abort :
    (∀ (fs : FS) (block : Nat) (l1 : List Nat) (p : Nat) (l2 : List Nat),
      (fs.disk block).take fs.nptrs = l1 ++ p :: l2 →
      (∀ q ∈ l1, q = 0 ∨ q < fs.block_count) →
      p ≠ 0 → fs.block_count ≤ p →
      iterate_over_all_blocks_of_indirect_block fs block =
        (l1.filter (· != 0), true)) ∧
    (iterate_over_all_blocks_of fs4 ino4 ⟨true, false⟩ = ([42], true) ∧
      19 ∉ (iterate_over_all_blocks_of fs4 ino4 ⟨true, false⟩).1) := by
  refine ⟨?_, by decide, by decide⟩
  intro fs block l1 p l2 heq h1 h2 h3
  rw [iterate_over_all_blocks_of_indirect_block, heq]
  exact indirect_go_break fs.block_count l1 p l2 h1 h2 h3

/-- Witness for claim C4: the general abort statement applied to the
scenario-S3 indirect block itself. -/
theorem claim_C4_witness :
    iterate_over_all_blocks_of_indirect_block fs4 17 = ([42], true) := by
  have h := claim_C4_indirect_walk_abort.1 fs4 17 [42] 0x7FFFFFFF
    ([19] ++ List.replicate 1021 0) (by decide) (by decide) (by decide) (by decide)
  simpa using h

/-- Filesystem for the counterexample to claim C5: block_count 100. -/
def fs5 : FS := ⟨100, 256, fun _ => List.replicate 256 0⟩

/-- Inode whose first direct slot holds 150, which is not a valid block
number for fs5. -/
def ino5 : Inode := ⟨0x81A4, 0, 0, 8, [150, 0, 0, 0, 0, 0, 0, 0, 0, 0, 0, 0, 0, 0, 0]⟩

/-- Counterexample to claim C5: the walker passes the direct-slot pointer 150
to the action although 150 is not below block_count = 100 — direct slots are
emitted without an is_block_number check. -/
theorem claim_C5_counterexample :
    150 ∈ (iterate_over_all_blocks_of fs5 ino5 ⟨true, false⟩).1 ∧
    ¬(150 < fs5.block_count) := by
  constructor
  · decide
  · decide

/-- Claim C5 (amended): every pointer read from inside an indirect, double
indirect or triple indirect block is checked with is_block_number before
being emitted, so all such emitted pointers are below block_count; the 12
direct slots and the top-level IND/DIND/TIND slots of the inode itself are
passed to the action unchecked. -/
theorem claim_C5_amended_indirect_pointers_in_range :
    (∀ (fs : FS) (block x : Nat),
      x ∈ (iterate_over_all_blocks_of_indirect_block fs block).1 →
      x < fs.block_count) ∧
    (∀ (fs : FS) (block : Nat) (mask : Mask) (x : Nat),
      x ∈ (iterate_over_all_blocks_of_double_indirect_block fs block mask).1 →
      x < fs.block_count) ∧
    (∀ (fs : FS) (block : Nat) (mask : Mask) (x : Nat),
      x ∈ (iterate_over_all_blocks_of_tripple_indirect_block fs block mask).1 →
      x < fs.block_count) :=
  ⟨fun fs block x hx => iterate_indirect_lt fs block x hx,
   fun fs block mask x hx => iterate_dind_lt fs block mask x hx,
   fun fs blk mask x hx => tind_go_lt fs mask ((fs.disk blk).take fs.nptrs) x hx⟩

/-- Filesystem for the witness of the amended claim C5. -/
def fsw5 : FS :=
  ⟨100, 256, fun b => if b == 3 then 7 :: List.replicate 255 0
                      else List.replicate 256 0⟩

/-- Witness for the amended claim C5: pointer 7, emitted from inside the
indirect block 3 of fsw5, is below block_count. -/
theorem claim_C5_witness : 7 < fsw5.block_count :=
  claim_C5_amended_indirect_pointers_in_range.1 fsw5 3 7 (by decide)

/-- Filesystem for the counterexample to claim C6: block 5 holds the pointer
array [7, 0, 9, 0, ...] and block_count is 100. -/
def fs6 : FS :=
  ⟨100, 256, fun b => if b == 5 then [7, 0, 9] ++ List.replicate 253 0
                      else List.replicate 256 0⟩

/-- Counterexample to claim C6: slot 1 of indirect block 5 is zero, yet the
pointer 9 in slot 2 is still emitted — a zero slot does not terminate the
level. -/
theorem claim_C6_counterexample :
    (fs6.disk 5).getD 1 0 = 0 ∧
    iterate_over_all_blocks_of_indirect_block fs6 5 = ([7, 9], false) := by
  constructor
  · decide
  · decide

/-- Claim C6 (amended): a pointer slot with value 0 is skipped and iteration
continues with the remaining slots of the same block; when every slot is
zero or a valid block number, the emitted blocks are exactly the nonzero
slots in order and the walk reports success.  (On a well-formed filesystem,
where every slot after the first zero is also zero, this coincides with
terminating at the first zero slot.) -/
theorem claim_C6_amended_zero_slot_skipped :
    ∀ (fs : FS) (block : Nat),
      (∀ q ∈ (fs.disk block).take fs.nptrs, q = 0 ∨ q < fs.block_count) →
      iterate_over_all_blocks_of_indirect_block fs block =
        (((fs.disk block).take fs.nptrs).filter (· != 0), false) := by
  intro fs block h
  rw [iterate_over_all_blocks_of_indirect_block]
  exact indirect_go_all_valid fs.block_count _ h

/-- Filesystem for the witness of the amended claim C6. -/
def fsw6 : FS :=
  ⟨50, 256, fun b => if b == 2 then [3, 0, 4, 0, 8] ++ List.replicate 251 0
                     else List.replicate 256 0⟩

/-- Witness for the amended claim C6: all slots of indirect block 2 of fsw6
are zero or valid, so the walk emits the nonzero slots [3, 4, 8] in order. -/
theorem claim_C6_witness :
    iterate_over_all_blocks_of_indirect_block fsw6 2 = ([3, 4, 8], false) := by
  have h := claim_C6_amended_zero_slot_skipped fsw6 2 (by decide)
  rw [h]
  decide

/-! ## Journal descriptors and `get_undeleted_inode`
(ext3grep.cc lines 2928-2954, 3085-3127, 3551-3572, 4757-4788)

`block_to_descriptors_map` maps a filesystem block to the descriptors that
wrote it, appended while walking `all_descriptors` in ascending sequence
order; `read_inode_copy jb n` is the copy of inode n found in journal block
jb (`get_block(descriptor.block()) + offset`). -/

inductive DescrType
  | dt_tag
  | dt_revoke
  | dt_commit
deriving DecidableEq, Repr

/-- A journal descriptor: its kind, its block number inside the journal
(`Descriptor::block()`), and its transaction sequence number. -/
structure Descr where
  dtype : DescrType
  jblock : Nat
  seq : Nat
deriving DecidableEq, Repr

structure JournalState where
  inode_table : Nat → Inode
  inode_to_block : Nat → Nat
  block_to_descriptors : Nat → List Descr
  read_inode_copy : Nat → Nat → Inode

/-- Loop of `get_inodes_from_journal` over the reversed descriptor list:
non-tags are skipped, and for each tag the historical inode copy is read from
the journal block of the descriptor. -/
def get_inodes_from_journal_go (js : JournalState) (inodenr : Nat) :
    List Descr → List (Nat × Inode)
  | [] => []
  | d :: rest =>
    if d.dtype = DescrType.dt_tag then
      (d.seq, js.read_inode_copy d.jblock inodenr) ::
        get_inodes_from_journal_go js inodenr rest
    else get_inodes_from_journal_go js inodenr rest

/-- `get_inodes_from_journal(inode, inodes)` (lines 3551-3572): iterate the
descriptors of the inode table block of `inodenr` with a reverse iterator,
i.e. in descending sequence order. -/
def get_inodes_from_journal (js : JournalState) (inodenr : Nat) :
    List (Nat × Inode) :=
  get_inodes_from_journal_go js inodenr
    ((js.block_to_descriptors (js.inode_to_block inodenr)).reverse)

/-- Sequence number of the last stored descriptor (`rbegin()`), 0 when the
list is empty. -/
def descriptors_last_seq : List Descr → Nat
  | [] => 0
  | [d] => d.seq
  | _ :: d :: rest => descriptors_last_seq (d :: rest)

/-- `find_largest_journal_sequence_number(block)` (lines 3121-3127): the map
stores descriptors in ascending sequence order, so `rbegin()` holds the
largest sequence; an absent entry gives 0. -/
def find_largest_journal_sequence_number (js : JournalState) (block : Nat) :
    Nat :=
  descriptors_last_seq (js.block_to_descriptors block)

inductive GetUndeletedInodeType
  | ui_no_inode
  | ui_real_inode
  | ui_journal_inode
  | ui_inode_too_old
deriving DecidableEq, Repr

/-- Loop of `get_undeleted_inode` over the journal copies: the first copy
with `dtime == 0` is returned as ui_journal_inode together with its sequence;
a deleted copy older than the `--after` cutoff (when set, i.e. nonzero)
returns ui_inode_too_old. -/
def get_undeleted_inode_go (after : Nat) :
    List (Nat × Inode) → GetUndeletedInodeType × Option Inode × Option Nat
  | [] => (GetUndeletedInodeType.ui_no_inode, none, none)
  | (seq, ino) :: rest =>
    if ino.dtime = 0 then (GetUndeletedInodeType.ui_journal_inode, some ino, some seq)
    else if after ≠ 0 ∧ ino.dtime < after then
      (GetUndeletedInodeType.ui_inode_too_old, none, none)
    else get_undeleted_inode_go after rest

/-- `get_undeleted_inode(inodenr, inode, sequence)` (lines 4764-4788). -/
def get_undeleted_inode (js : JournalState) (inodenr after : Nat) :
    GetUndeletedInodeType × Option Inode × Option Nat :=
  let real := js.inode_table inodenr
  if real.dtime = 0 then (GetUndeletedInodeType.ui_real_inode, some real, none)
  else get_undeleted_inode_go after (get_inodes_from_journal js inodenr)

theorem get_undeleted_inode_go_no_after (l : List (Nat × Inode)) :
    get_undeleted_inode_go 0 l =
      match l.find? (fun p => p.2.dtime == 0) with
      | some (s, ino) => (GetUndeletedInodeType.ui_journal_inode, some ino, some s)
      | none => (GetUndeletedInodeType.ui_no_inode, none, none) := by
  induction l with
  | nil => rfl
  | cons p rest ih =>
    obtain ⟨s, ino⟩ := p
    by_cases h : ino.dtime = 0
    · have hb : (ino.dtime == 0) = true := by simpa using h
      simp [get_undeleted_inode_go, h, hb, List.find?]
    · have hb : (ino.dtime == 0) = false := by simpa using h
      simp [get_undeleted_inode_go, h, hb, List.find?, ih]

/-- Journal state of scenario S4: the inode table block 1000 has two tag
descriptors, at sequences 7 and 12 (stored in ascending order); the copy read
from journal block jb is marked with atime = jb so that the two copies are
distinguishable. -/
def js1 : JournalState :=
  { inode_table := fun _ => ⟨0x81A4, 0, 100, 0, []⟩
    inode_to_block := fun _ => 1000
    block_to_descriptors := fun b =>
      if b == 1000 then [⟨DescrType.dt_tag, 501, 7⟩, ⟨DescrType.dt_tag, 502, 12⟩]
      else []
    read_inode_copy := fun jb _ => ⟨0x81A4, 0, jb, 0, []⟩ }

/-- Claim C1: get_undeleted_inode returns the on-disk inode as ui_real_inode
whenever its dtime is 0; otherwise it scans the journal copies of the inode
table block in descending sequence order and returns the first copy with
dtime 0 as ui_journal_inode.  Scenario S4: with tags at sequences 7 and 12
for the same block, find_largest_journal_sequence_number is 12 and the
sequence-12 copy is inspected before the sequence-7 copy. -/
theorem claim_C1_get_undeleted_inode :
    (∀ (js : JournalState) (n : Nat), (js.inode_table n).dtime = 0 →
      get_undeleted_inode js n 0 =
        (GetUndeletedInodeType.ui_real_inode, some (js.inode_table n), none)) ∧
    (∀ (js : JournalState) (n : Nat), (js.inode_table n).dtime ≠ 0 →
      get_undeleted_inode js n 0 =
        match (get_inodes_from_journal js n).find? (fun p => p.2.dtime == 0) with
        | some (s, ino) =>
            (GetUndeletedInodeType.ui_journal_inode, some ino, some s)
        | none => (GetUndeletedInodeType.ui_no_inode, none, none)) ∧
    (find_largest_journal_sequence_number js1 1000 = 12 ∧
      (get_inodes_from_journal js1 42).map Prod.fst = [12, 7]) := by
  refine ⟨?_, ?_, by decide, by decide⟩
  · intro js n h
    simp [get_undeleted_inode, h]
  · intro js n h
    simp [get_undeleted_inode, h, get_undeleted_inode_go_no_after]

/-- Journal state for the witness of claim C1: the on-disk inode is deleted
(dtime 500); the sequence-12 copy is undeleted, the sequence-7 copy is not. -/
def js2 : JournalState :=
  { inode_table := fun _ => ⟨0x81A4, 500, 100, 0, []⟩
    inode_to_block := fun _ => 1000
    block_to_descriptors := fun b =>
      if b == 1000 then [⟨DescrType.dt_tag, 501, 7⟩, ⟨DescrType.dt_tag, 502, 12⟩]
      else []
    read_inode_copy := fun jb _ =>
      if jb == 502 then ⟨0x81A4, 0, 12, 0, []⟩ else ⟨0x81A4, 99, 7, 0, []⟩ }

/-- Witness for claim C1: the live on-disk branch at js1 and the journal
branch at js2, which returns the sequence-12 copy. -/
theorem claim_C1_witness :
    get_undeleted_inode js1 42 0 =
      (GetUndeletedInodeType.ui_real_inode, some ⟨0x81A4, 0, 100, 0, []⟩, none) ∧
    get_undeleted_inode js2 42 0 =
      (GetUndeletedInodeType.ui_journal_inode, some ⟨0x81A4, 0, 12, 0, []⟩,
        some 12) := by
  constructor
  · have h := claim_C1_get_undeleted_inode.1 js1 42 (by decide)
    rw [h]
    decide
  · have h := claim_C1_get_undeleted_inode.2.1 js2 42 (by decide)
    rw [h]
    decide

/-! ## Stage-2 live-allocated shortcut (ext3grep.cc lines 3817-3868) -/

/-- The per-inode body of the first stage-2 loop of
`init_dir_inode_to_block_cache`: for an allocated inode with directory mode,
`first_block = inode.block()[0]` must be nonzero (assert) and, when the
stage-1 candidate list is nonempty, must occur in it (assert count == 1);
the candidate list is then erased and replaced by `[first_block]`.  An empty
candidate list is kept with a warning; a failing assert is modelled as
`none`. -/
def stage2_live_shortcut (allocated : Bool) (ino : Inode) (bv : List Nat) :
    Option (List Nat) :=
  if allocated = true ∧ is_directory_inode ino = true then
    if ino.block.getD 0 0 = 0 then none
    else if bv = [] then some bv
    else if ino.block.getD 0 0 ∈ bv then some [ino.block.getD 0 0]
    else none
  else some bv

/-- Claim C2: for an allocated directory inode, stage 2 replaces the stage-1
candidate directory-block list by the single inode-resident first block
pointer inode.block[0]. -/
theorem claim_C2_live_allocated_shortcut :
    ∀ (allocated : Bool) (ino : Inode) (bv : List Nat),
      allocated = true → is_directory_inode ino = true →
      ino.block.getD 0 0 ≠ 0 → bv ≠ [] → ino.block.getD 0 0 ∈ bv →
      stage2_live_shortcut allocated ino bv = some [ino.block.getD 0 0] := by
  intro allocated ino bv h1 h2 h3 h4 h5
  rw [stage2_live_shortcut, if_pos ⟨h1, h2⟩, if_neg h3, if_neg h4, if_pos h5]

/-- The allocated directory inode of scenario S5 (inode 2008): mode DIR,
block[0] = 500. -/
def inode2008 : Inode :=
  ⟨0x41ED, 0, 1200000000, 2, [500, 0, 0, 0, 0, 0, 0, 0, 0, 0, 0, 0, 0, 0, 0]⟩

/-- Witness for claim C2 (scenario S5): candidates {500, 900, 901} are
reduced to exactly {500}. -/
theorem claim_C2_witness :
    stage2_live_shortcut true inode2008 [500, 900, 901] = some [500] := by
  have h := claim_C2_live_allocated_shortcut true inode2008 [500, 900, 901]
    rfl (by decide) (by decide) (by decide) (by decide)
  simpa using h

/-! ## Stage-2 journal pruning (ext3grep.cc lines 3895-3957) -/

/-- Environment of the journal-pruning loop: `is_journal` and the sequence
number of the descriptor at a journal block
(`block_in_journal_to_descriptors_map`, `none` when the block is absent from
the map, which the C code asserts against). -/
structure JEnv where
  is_journal : Nat → Bool
  jseq : Nat → Option Nat

/-- First loop (lines 3899-3928): walk the candidates, accumulating the
highest sequence number among the leading journal blocks; the loop breaks at
the first non-journal block, in which case not all candidates are journal
blocks (`need_keep_one_journal = false`).  A journal candidate missing from
the descriptor map fails an assert, modelled as `none`. -/
def journal_scan (env : JEnv) : List Nat → Option (Nat × Bool)
  | [] => some (0, true)
  | b :: rest =>
    if env.is_journal b then
      match env.jseq b with
      | none => none
      | some s =>
        match journal_scan env rest with
        | none => none
        | some (h, aj) => some (max s h, aj)
    else some (0, false)

/-- Second loop (lines 3930-3957): remove every journal block, except that
when all candidates are journal blocks (`keep_one`), those whose descriptor
sequence equals the highest sequence are kept. -/
def journal_remove (env : JEnv) (keep_one : Bool) (h : Nat) :
    List Nat → List Nat
  | [] => []
  | b :: rest =>
    if env.is_journal b then
      if keep_one then
        match env.jseq b with
        | some s => if s = h then b :: journal_remove env keep_one h rest
                    else journal_remove env keep_one h rest
        | none => journal_remove env keep_one h rest
      else journal_remove env keep_one h rest
    else b :: journal_remove env keep_one h rest

/-- The journal-pruning step applied to the candidate list of one inode. -/
def prune_journal_blocks (env : JEnv) (bv : List Nat) : Option (List Nat) :=
  match journal_scan env bv with
  | none => none
  | some (h, aj) => some (journal_remove env aj h bv)

theorem journal_remove_not_keep (env : JEnv) (h : Nat) (bv : List Nat) :
    journal_remove env false h bv = bv.filter (fun b => !env.is_journal b) := by
  induction bv with
  | nil => rfl
  | cons b rest ih =>
    by_cases hb : env.is_journal b
    · simp [journal_remove, hb, ih, List.filter_cons]
    · simp [journal_remove, hb, ih, List.filter_cons]

theorem journal_scan_not_all (env : JEnv) (bv : List Nat)
    (hpresent : ∀ b ∈ bv, env.is_journal b = true → (env.jseq b).isSome)
    (hex : ∃ b ∈ bv, env.is_journal b = false) :
    ∃ h, journal_scan env bv = some (h, false) := by
  induction bv with
  | nil => obtain ⟨b, hb, _⟩ := hex; exact absurd hb (List.not_mem_nil b)
  | cons b rest ih =>
    by_cases hb : env.is_journal b
    · have hsome := hpresent b (List.mem_cons_self b rest) hb
      obtain ⟨s, hs⟩ := Option.isSome_iff_exists.mp hsome
      have hex2 : ∃ c ∈ rest, env.is_journal c = false := by
        obtain ⟨c, hc, hcj⟩ := hex
        rcases List.mem_cons.mp hc with rfl | hc2
        · rw [hb] at hcj; exact absurd hcj (by simp)
        · exact ⟨c, hc2, hcj⟩
      obtain ⟨h, hscan⟩ := ih
        (fun c hc hcj => hpresent c (List.mem_cons_of_mem b hc) hcj) hex2
      refine ⟨max s h, ?_⟩
      simp [journal_scan, hb, hs, hscan]
    · refine ⟨0, ?_⟩
      simp [journal_scan, hb]

theorem journal_scan_all (env : JEnv) (bv : List Nat) (h : Nat)
    (hscan : journal_scan env bv = some (h, true)) :
    ∀ b ∈ bv, env.is_journal b = true := by
  induction bv generalizing h with
  | nil => intro b hb; exact absurd hb (List.not_mem_nil b)
  | cons b rest ih =>
    intro c hc
    by_cases hb : env.is_journal b
    · rcases List.mem_cons.mp hc with rfl | hc2
      · exact hb
      · rw [journal_scan, if_pos hb] at hscan
        rcases hjs : env.jseq b with _ | s
        · rw [hjs] at hscan; exact absurd hscan (by simp)
        · rw [hjs] at hscan
          rcases hrec : journal_scan env rest with _ | ⟨h2, aj⟩
          · rw [hrec] at hscan; exact absurd hscan (by simp)
          · rw [hrec] at hscan
            simp only [Option.some.injEq, Prod.mk.injEq] at hscan
            exact ih h2 (by rw [hrec, hscan.2]) c hc2
    · rw [journal_scan, if_neg hb] at hscan
      simp at hscan

theorem journal_remove_keep (env : JEnv) (h : Nat) (bv : List Nat)
    (hall : ∀ b ∈ bv, env.is_journal b = true) :
    journal_remove env true h bv =
      bv.filter (fun b => env.jseq b == some h) := by
  induction bv with
  | nil => rfl
  | cons b rest ih =>
    have hb := hall b (List.mem_cons_self b rest)
    have ih2 := ih (fun c hc => hall c (List.mem_cons_of_mem b hc))
    rcases hjs : env.jseq b with _ | s
    · simp [journal_remove, hb, hjs, ih2, List.filter_cons]
    · by_cases hsh : s = h
      · simp [journal_remove, hb, hjs, hsh, ih2, List.filter_cons]
      · simp [journal_remove, hb, hjs, hsh, ih2, List.filter_cons]

/-- Counterexample to claim C3: candidates 10 and 20 are both journal blocks
and their descriptors share the highest sequence number 5; the pruning keeps
both, not exactly one. -/
def env34 : JEnv :=
  ⟨fun b => b == 10 || b == 20,
   fun b => if b == 10 || b == 20 then some 5 else none⟩

theorem claim_C3_counterexample :
    env34.is_journal 10 = true ∧ env34.is_journal 20 = true ∧
    prune_journal_blocks env34 [10, 20] = some [10, 20] := by
  refine ⟨by decide, by decide, by decide⟩

/-- Claim C3 (amended): with multiple candidates, if at least one candidate
is not a journal block then every journal-block candidate is removed; if
every candidate is a journal block, the candidates kept are exactly those
whose descriptor carries the highest sequence number — exactly one when that
maximum is attained uniquely. -/
theorem claim_C3_amended_journal_pruning :
    (∀ (env : JEnv) (bv : List Nat), 2 ≤ bv.length →
      (∀ b ∈ bv, env.is_journal b = true → (env.jseq b).isSome) →
      (∃ b ∈ bv, env.is_journal b = false) →
      prune_journal_blocks env bv =
        some (bv.filter (fun b => !env.is_journal b))) ∧
    (∀ (env : JEnv) (bv : List Nat) (h : Nat), 2 ≤ bv.length →
      journal_scan env bv = some (h, true) →
      prune_journal_blocks env bv =
        some (bv.filter (fun b => env.jseq b == some h)) ∧
      ∀ b0 : Nat, bv.filter (fun b => env.jseq b == some h) = [b0] →
        prune_journal_blocks env bv = some [b0]) := by
  constructor
  · intro env bv _ hpresent hex
    obtain ⟨h, hscan⟩ := journal_scan_not_all env bv hpresent hex
    simp [prune_journal_blocks, hscan, journal_remove_not_keep]
  · intro env bv h _ hscan
    have hall := journal_scan_all env bv h hscan
    have hmain : prune_journal_blocks env bv =
        some (bv.filter (fun b => env.jseq b == some h)) := by
      simp [prune_journal_blocks, hscan, journal_remove_keep env h bv hall]
    exact ⟨hmain, fun b0 hb0 => by rw [hmain, hb0]⟩

/-- Environment for the first witness of claim C3: block 10 is a journal
block, block 30 is not. -/
def envw3 : JEnv :=
  ⟨fun b => b == 10, fun b => if b == 10 then some 4 else none⟩

/-- Environment for the second witness of claim C3: blocks 10 and 20 are
journal blocks with distinct sequences 7 and 12. -/
def envw3b : JEnv :=
  ⟨fun b => b == 10 || b == 20,
   fun b => if b == 10 then some 7 else if b == 20 then some 12 else none⟩

/-- Witness for the amended claim C3: with a non-journal candidate present
the journal block is dropped; with only journal candidates the unique
highest-sequence block 20 is kept. -/
theorem claim_C3_witness :
    prune_journal_blocks envw3 [10, 30] = some [30] ∧
    prune_journal_blocks envw3b [10, 20] = some [20] := by
  constructor
  · have h := claim_C3_amended_journal_pruning.1 envw3 [10, 30]
      (by decide) (by decide) ⟨30, by decide, by decide⟩
    rw [h]; decide
  · have h := (claim_C3_amended_journal_pruning.2 envw3b [10, 20] 12
      (by decide) (by decide)).1
    rw [h]; decide

/-! ## Journal index: `block_to_dir_inode` map
(ext3grep.cc lines 3213-3221 and 3285-3318)

After sorting the descriptors by ascending sequence number, `init_journal`
runs over all tags that reference an inode table block; for each inode copy
in such a tag it skips non-directories and copies with nonzero dtime, zero
atime or zero first block pointer, and otherwise writes
`block -> inode_number` into `block_to_dir_inode_map` for every block the
walker emits for that copy.  The map is modelled as `Nat → Option Nat`. -/

/-- `directory_inode_action(blocknr, data)` (lines 3213-3221): insert the
mapping, overwriting an existing entry (later sequences win). -/
def directory_inode_action (m : Nat → Option Nat) (blocknr inode_number : Nat) :
    Nat → Option Nat :=
  fun b => if b = blocknr then some inode_number else m b

/-- Processing of one inode copy (lines 3303-3315): the filter
`is_directory && dtime == 0 && atime != 0 && block[0] != 0` followed by
`iterate_over_all_blocks_of(inode, directory_inode_action, &inode_number)`
with the default `indirect_mask = direct_bit`. -/
def process_inode_copy (fs : FS) (m : Nat → Option Nat) (ino : Inode)
    (n : Nat) : Nat → Option Nat :=
  if is_directory_inode ino = true ∧ ino.dtime = 0 ∧ ino.atime ≠ 0 ∧
      ino.block.getD 0 0 ≠ 0 then
    (iterate_over_all_blocks_of fs ino ⟨true, false⟩).1.foldl
      (fun m b => directory_inode_action m b n) m
  else m

/-- Loop over the inode copies of one tagged inode-table block, with
ascending inode numbers starting at the first inode of the block
(lines 3298-3301). -/
def process_inode_copies (fs : FS) (m : Nat → Option Nat) (n : Nat) :
    List Inode → Nat → Option Nat
  | [] => m
  | c :: rest => process_inode_copies fs (process_inode_copy fs m c n) (n + 1) rest

/-- Loop over the tags that reference inode-table blocks, in ascending
sequence order (lines 3288-3318); each element is the first inode number of
the tagged block paired with the inode copies in the tagged data block. -/
def process_inode_tags (fs : FS) (m : Nat → Option Nat) :
    List (Nat × List Inode) → Nat → Option Nat
  | [] => m
  | (base, copies) :: rest =>
      process_inode_tags fs (process_inode_copies fs m base copies) rest

theorem fold_action_not_mem (l : List Nat) (m : Nat → Option Nat) (n b : Nat)
    (h : b ∉ l) :
    (l.foldl (fun m x => directory_inode_action m x n) m) b = m b := by
  induction l generalizing m with
  | nil => rfl
  | cons x rest ih =>
    have hb : b ≠ x := fun hbx => h (hbx ▸ List.mem_cons_self x rest)
    have h2 : b ∉ rest := fun hr => h (List.mem_cons_of_mem x hr)
    rw [List.foldl_cons, ih _ h2, directory_inode_action, if_neg hb]

theorem fold_action_mem (l : List Nat) (m : Nat → Option Nat) (n b : Nat)
    (h : b ∈ l) :
    (l.foldl (fun m x => directory_inode_action m x n) m) b = some n := by
  induction l generalizing m with
  | nil => exact absurd h (List.not_mem_nil b)
  | cons x rest ih =>
    rw [List.foldl_cons]
    by_cases hr : b ∈ rest
    · exact ih _ hr
    · have hbx : b = x := by
        rcases List.mem_cons.mp h with h1 | h1
        · exact h1
        · exact absurd h1 hr
      rw [fold_action_not_mem rest _ n b hr, directory_inode_action, if_pos hbx]

theorem first_block_in_walker_output (fs : FS) (ino : Inode)
    (hdir : is_directory_inode ino = true) (hb0 : ino.block.getD 0 0 ≠ 0) :
    ino.block.getD 0 0 ∈ (iterate_over_all_blocks_of fs ino ⟨true, false⟩).1 := by
  have hsym : ¬(is_symlink_inode ino = true ∧ ino.blocks = 0) := by
    intro ⟨hs, _⟩
    rw [is_directory_inode, beq_iff_eq] at hdir
    rw [is_symlink_inode, beq_iff_eq, hdir] at hs
    norm_num at hs
  have hd : ino.block.getD 0 0 ∈ (ino.block.take 12).filter (· != 0) := by
    rcases hblock : ino.block with _ | ⟨b, rest⟩
    · exact absurd rfl (hblock ▸ hb0)
    · rw [hblock] at hb0
      simp only [List.getD_cons_zero] at hb0 ⊢
      have hmem : b ∈ (b :: rest).take 12 := by
        simp [List.take_cons]
      exact List.mem_filter.mpr ⟨hmem, by simpa using hb0⟩
  rw [iterate_over_all_blocks_of, if_neg hsym]
  simp only
  exact List.mem_append_left _ hd

/-- Filesystem used by the counterexample and scenario of claim C7; the
walker never dereferences it because all indirect pointers involved are
zero. -/
def fs7 : FS := ⟨1000, 256, fun _ => List.replicate 256 0⟩

/-- Directory inode copy with dtime 0 but atime 0 and first block 5: the
claim says its mapping is written, the code skips it. -/
def copyBad : Inode :=
  ⟨0x41ED, 0, 0, 2, [5, 0, 0, 0, 0, 0, 0, 0, 0, 0, 0, 0, 0, 0, 0]⟩

/-- Counterexample to claim C7: copyBad is an undeleted (dtime = 0) directory
copy with non-zero first block pointer 5, yet after processing its tag the
map still has no entry for block 5, because the code additionally requires a
non-zero atime. -/
theorem claim_C7_counterexample :
    is_directory_inode copyBad = true ∧ copyBad.dtime = 0 ∧
    copyBad.block.getD 0 0 = 5 ∧
    process_inode_tags fs7 (fun _ => none) [(10, [copyBad])] 5 = none := by
  refine ⟨by decide, by decide, by decide, by decide⟩

/-- Directory inode copies for the ascending-sequence scenario of claim C7:
both map block 500, from tags at sequences 7 (inode 30) and 12 (inode 44). -/
def copyA : Inode :=
  ⟨0x41ED, 0, 100, 2, [500, 0, 0, 0, 0, 0, 0, 0, 0, 0, 0, 0, 0, 0, 0]⟩

def copyB : Inode :=
  ⟨0x41ED, 0, 200, 2, [500, 0, 0, 0, 0, 0, 0, 0, 0, 0, 0, 0, 0, 0, 0]⟩

/-- Claim C7 (amended): a journal inode copy is indexed iff it is a directory
with dtime = 0, non-zero atime and non-zero first block pointer; then the
mapping first_block -> inode_number is written (along with one mapping for
every other block the walker emits); since tags are processed in ascending
sequence order and the map write overwrites, the highest-sequence write
wins. -/
theorem claim_C7_amended_block_to_dir_inode :
    (∀ (fs : FS) (m : Nat → Option Nat) (ino : Inode) (n : Nat),
      is_directory_inode ino = true → ino.dtime = 0 → ino.atime ≠ 0 →
      ino.block.getD 0 0 ≠ 0 →
      process_inode_copy fs m ino n (ino.block.getD 0 0) = some n) ∧
    (∀ (fs : FS) (m : Nat → Option Nat) (l1 l2 : List (Nat × List Inode)),
      process_inode_tags fs m (l1 ++ l2) =
        process_inode_tags fs (process_inode_tags fs m l1) l2) ∧
    (process_inode_tags fs7 (fun _ => none) [(30, [copyA]), (44, [copyB])] 500 =
      some 44) := by
  refine ⟨?_, ?_, by decide⟩
  · intro fs m ino n hdir hdtime hatime hb0
    rw [process_inode_copy, if_pos ⟨hdir, hdtime, hatime, hb0⟩]
    exact fold_action_mem _ m n _ (first_block_in_walker_output fs ino hdir hb0)
  · intro fs m l1 l2
    induction l1 generalizing m with
    | nil => rfl
    | cons t rest ih =>
      obtain ⟨base, copies⟩ := t
      rw [List.cons_append, process_inode_tags, process_inode_tags, ih]

/-- Witness for the amended claim C7: processing the live directory copy
copyA as inode 30 writes the mapping 500 -> 30. -/
theorem claim_C7_witness :
    process_inode_copy fs7 (fun _ => none) copyA 30 500 = some 30 := by
  have h := claim_C7_amended_block_to_dir_inode.1 fs7 (fun _ => none) copyA 30
    (by decide) (by decide) (by decide) (by decide)
  simpa using h

/-! ## Extended-directory owner inference
(ext3grep.cc lines 4148-4192 and 4261-4284)

For an extended block, `iterate_over_directory` presents every entry to
`extended_directory_action` (under `no_filtering`, so the return value that
normally aborts recursion is ignored); sub-directory entries with a non-zero
inode are followed to their own candidate start block, whose second entry
(`..`) supplies a vote, tallied into the `linked` or `unlinked` map keyed by
the `..` inode.  `init_directories` then prefers the linked map, asserts the
chosen map has exactly one entry, and links the block to that inode. -/

/-- The first two entries of a candidate start block: the inode of the `.`
entry, whether the second entry is literally `..`, and the inode of that
`..` entry. -/
structure ChildBlock where
  dot_inode : Nat
  dotdot_ok : Bool
  dotdot_inode : Nat
deriving DecidableEq, Repr

/-- Environment of the vote collection: `dir_inode_to_block` (none models the
-1 "cannot find a directory block" result) and the reader of a candidate
start block. -/
structure DirEnv where
  dir_inode_to_block : Nat → Option Nat
  read_start_block : Nat → ChildBlock

/-- A directory entry of the extended block as seen by the action: its inode
field, its `file_type`, and the `linked` flag of the pass that found it
(`zero_inode` is `inode == 0`). -/
structure ExtEntry where
  inode : Nat
  file_type : Nat
  linked : Bool
deriving DecidableEq, Repr

/-- An ordered count map mirroring `std::map<int, int>` (keys ascending). -/
def map_incr : List (Nat × Nat) → Nat → List (Nat × Nat)
  | [], k => [(k, 1)]
  | (q, c) :: rest, k =>
    if k < q then (k, 1) :: (q, c) :: rest
    else if k = q then (q, c + 1) :: rest
    else (q, c) :: map_incr rest k

/-- The two vote maps of `extended_directory_action_data_st`. -/
structure VoteData where
  linked : List (Nat × Nat)
  unlinked : List (Nat × Nat)
deriving DecidableEq, Repr

/-- `extended_directory_action` (lines 4164-4192) on one entry: non-DIR or
zero-inode entries are ignored; a missing candidate block leaves the tallies
unchanged (the true returned by the C code is ignored under no_filtering);
the asserts on the child start block (its first entry must be the child
itself, its second entry must be a `..` entry with non-zero inode) are
modelled as `none`. -/
def extended_directory_action (env : DirEnv) (st : VoteData) (e : ExtEntry) :
    Option VoteData :=
  if e.file_type % 8 = 2 ∧ e.inode ≠ 0 then
    match env.dir_inode_to_block e.inode with
    | none => some st
    | some blk =>
      let cb := env.read_start_block blk
      if cb.dot_inode = e.inode ∧ cb.dotdot_ok = true ∧ cb.dotdot_inode ≠ 0 then
        some (if e.linked then { st with linked := map_incr st.linked cb.dotdot_inode }
              else { st with unlinked := map_incr st.unlinked cb.dotdot_inode })
      else none
  else some st

/-- Vote collection over all entries of the extended block. -/
def collect_votes (env : DirEnv) (st : VoteData) :
    List ExtEntry → Option VoteData
  | [] => some st
  | e :: rest =>
    match extended_directory_action env st e with
    | none => none
    | some st2 => collect_votes env st2 rest

/-- Owner selection in `init_directories` (lines 4274-4284): prefer the
linked tally when nonempty; when the chosen tally is nonempty the code
asserts it has exactly one entry (modelled as `none` otherwise) and uses its
inode (`begin()->first`); an empty tally falls through to the journal and
filename heuristics, outside the vote path (also `none` here). -/
def choose_extended_owner (vd : VoteData) : Option Nat :=
  let itc := if vd.linked.length > 0 then vd.linked else vd.unlinked
  if itc.length > 0 then
    if itc.length = 1 then some ((itc.headD (0, 0)).1) else none
  else none

/-- Environment of the counterexample to claim C8: inodes 10, 11, 12 resolve
to start blocks 100, 101, 102; blocks 100 and 101 have `..` inode 77 while
block 102 has `..` inode 88. -/
def envY : DirEnv :=
  ⟨fun i => if i == 10 then some 100 else if i == 11 then some 101
            else if i == 12 then some 102 else none,
   fun b => ⟨b - 90, true, if b == 102 then 88 else 77⟩⟩

/-- The three live sub-directory entries of the counterexample block. -/
def entriesY : List ExtEntry := [⟨10, 2, true⟩, ⟨11, 2, true⟩, ⟨12, 2, true⟩]

/-- Counterexample to claim C8: the `..` votes are 77 (twice) and 88 (once);
a majority vote would pick 77, but the code asserts that the tally map has
exactly one entry, so no owner is chosen. -/
theorem claim_C8_counterexample :
    collect_votes envY ⟨[], []⟩ entriesY = some ⟨[(77, 2), (88, 1)], []⟩ ∧
    choose_extended_owner ⟨[(77, 2), (88, 1)], []⟩ = none := by
  refine ⟨by decide, by decide⟩

/-- Claim C8 (amended): the `..`-entry inodes obtained by following each
sub-directory entry (file-type DIR, non-zero inode) to its candidate start
block are tallied, linked entries being preferred over unlinked ones; the
owner is the unanimous `..` inode — the code asserts that the preferred
tally map has exactly one distinct inode rather than taking a majority vote.
An extended block whose live sub-directory entries all vote for inode 77 is
attached to inode 77. -/
theorem claim_C8_amended_extended_owner :
    (∀ (env : DirEnv) (entries : List ExtEntry) (vd : VoteData) (v c : Nat),
      collect_votes env ⟨[], []⟩ entries = some vd →
      (if vd.linked.length > 0 then vd.linked else vd.unlinked) = [(v, c)] →
      choose_extended_owner vd = some v) ∧
    (collect_votes envY ⟨[], []⟩ [⟨10, 2, true⟩, ⟨11, 2, true⟩] =
        some ⟨[(77, 2)], []⟩ ∧
      choose_extended_owner ⟨[(77, 2)], []⟩ = some 77) := by
  refine ⟨?_, by decide, by decide⟩
  intro env entries vd v c _ hsel
  simp only [choose_extended_owner, hsel]
  rfl

/-- Witness for the amended claim C8: a unanimous linked tally for inode 77
selects inode 77 as the owner. -/
theorem claim_C8_witness :
    choose_extended_owner ⟨[(77, 1)], []⟩ = some 77 := by
  have h := claim_C8_amended_extended_owner.1 envY [⟨10, 2, true⟩]
    ⟨[(77, 1)], []⟩ 77 1
  exact h (by decide) (by decide)

end Ext3grep
